import Mathlib

/-!
# Verification of the gitflow automation script

A shallow embedding of `.github/workflows/git-script.py`, an interactive
workflow automator that sequences git operations (fetch/compare, optional
stash+pull, branch checkout, stage, commit, push).

Strings are modelled as `List Char`.  The underlying git repository is
modelled by a `RepoState` oracle recording, for each git call the script
makes, whether that call succeeds and what it observes; each run produces
the trace of git operations issued together with the process outcome.
Interactive stdin is modelled as a list of input lines.
-/

namespace Gitflow

/-- ASCII whitespace stripped by the Python `str.strip()` method (Python
strips some non-ASCII Unicode space characters, which no claim depends on). -/
def pyWs (c : Char) : Bool :=
  c = ' ' || c = '\t' || c = '\n' || c = '\r' || c = '\x0b' || c = '\x0c'

/-- Python `str.strip()`: drop leading and trailing whitespace. -/
def strip (s : List Char) : List Char :=
  ((s.dropWhile pyWs).reverse.dropWhile pyWs).reverse

/-- Python `str.lower()`, restricted to character-wise lowercasing (the
script only tests whether the result starts with the ASCII letter `y`). -/
def lower (s : List Char) : List Char := s.map Char.toLower

/-- The Python check `startswith` with the letter `y`: the first character
of the string is `y`. -/
def startsWithY (s : List Char) : Bool := s.head? == some 'y'

/-- The characters of the regex character class `[~^:\?\*\[\\]` in the
pattern of `valid_branch`: `~ ^ : ? * [ \`. -/
def reservedChar (c : Char) : Bool :=
  c = '~' || c = '^' || c = ':' || c = '?' || c = '*' || c = '[' || c = '\\'

/-- Whether the string starts with `/` (the first alternative of the
negative lookahead `(?!/|...)`). -/
def startsSlash (s : List Char) : Bool := s.head? == some '/'

/-- The pattern of the negative lookahead, `/|.*([~^:\?\*\[\\])`, matches at the
start of `s` iff `s` starts with `/`, or a reserved character occurs on the
first line (regex `.` does not match a newline, so `.*` cannot scan past
one). -/
def laMatches (s : List Char) : Bool :=
  startsSlash s || (s.takeWhile (fun c => c != '\n')).any reservedChar

/-- The body `.+(?<!/)$` matches from the start of `s` iff a nonempty
newline-free run from position 0 ends at an end-of-string position whose
preceding character is not `/`.  In Python (no MULTILINE), `$` matches at
the very end of the string, or just before a newline that is the last
character; hence the two disjuncts. -/
def bodyMatches (s : List Char) : Bool :=
  (!s.isEmpty && s.all (fun c => c != '\n') && !(s.getLast? == some '/'))
  || ((s.getLast? == some '\n') && !s.dropLast.isEmpty
      && s.dropLast.all (fun c => c != '\n') && !(s.dropLast.getLast? == some '/'))

/-- `valid_branch(name)`, which evaluates a Python `re.match` of the anchored
pattern `^(?!/|.*([~^:\?\*\[\\])).+(?<!/)$` against `name` as a boolean:
the anchored match succeeds iff the negative lookahead fails and the body
matches. -/
def valid_branch (s : List Char) : Bool :=
  !laMatches s && bodyMatches s

/-- A git operation issued by the script, in the order the script issues
them.  `noticeNothingToDo` records the "[NOTICE] No changes on the remote
and the working tree is clean" message (the one print that a claim is
about); `stashPop` is the restore operation the claims speak of — it is in
the vocabulary so that its absence from a trace can be stated. -/
inductive GitOp
  | fetch
  | logRange
  | isDirty
  | stashSave
  | pull
  | stashList
  | stashPop
  | noticeNothingToDo
  | checkoutNew (b : List Char)
  | checkout (b : List Char)
  | addAll
  | commit (m : List Char)
  | push (b : List Char)
deriving DecidableEq

/-- Oracle for one run: what each git call the script makes observes or
whether it raises `GitCommandError`.  `checkoutNewErr` is `none` on success
and `some reason` when `git checkout -b` fails with that error text (the
script catches the exception without inspecting it). -/
structure RepoState where
  fetchOk : Bool
  remoteDiff : Bool
  dirty : Bool
  stashSaveOk : Bool
  pullOk : Bool
  stashListNonempty : Bool
  checkoutNewErr : Option (List Char)
  checkoutOk : Bool
  addOk : Bool
  commitOk : Bool
  pushOk : Bool
deriving DecidableEq

/-- Result of `fetch_and_pull`: the function either terminates the process
(`sys.exit`) or falls through and the workflow proceeds. -/
inductive FetchOutcome
  | exited (code : Nat)
  | proceed
deriving DecidableEq

/-- `fetch_and_pull(repo)`: fetch; diff `HEAD..origin/main`; if the remote
diverges and the tree is dirty, stash save, pull, then check `stash list`
(the script prints "Restoring stashed changes" there but issues no further
git call); if the remote does not diverge and the tree is clean, print the
nothing-to-do notice and exit 0.  Any `GitCommandError` exits 1. -/
def fetch_and_pull (r : RepoState) : List GitOp × FetchOutcome :=
  if !r.fetchOk then ([.fetch], .exited 1)
  else if r.remoteDiff then
    if r.dirty then
      if !r.stashSaveOk then ([.fetch, .logRange, .isDirty, .stashSave], .exited 1)
      else if !r.pullOk then
        ([.fetch, .logRange, .isDirty, .stashSave, .pull], .exited 1)
      else ([.fetch, .logRange, .isDirty, .stashSave, .pull, .stashList], .proceed)
    else ([.fetch, .logRange, .isDirty], .proceed)
  else
    if r.dirty then ([.fetch, .logRange, .isDirty], .proceed)
    else ([.fetch, .logRange, .isDirty, .noticeNothingToDo], .exited 0)

/-- Result of a prompt: a value was accepted (with the remaining stdin
lines), the process exited with status 1, or stdin ran dry (the real
script would block forever waiting for input). -/
inductive PromptOut
  | accepted (v : List Char) (rest : List (List Char))
  | exit1
  | blocked
deriving DecidableEq

/-- The interactive loop of `prompt_branch`: read a line, strip it, accept
it if `valid_branch` holds, otherwise warn and re-prompt. -/
def promptBranchLoop : List (List Char) → PromptOut
  | [] => .blocked
  | raw :: rest =>
    if valid_branch (strip raw) then .accepted (strip raw) rest
    else promptBranchLoop rest

/-- `prompt_branch(repo, arg_branch)`: a truthy (non-empty) pre-set branch
is validated once — invalid exits 1, valid is returned verbatim; a falsy
argument (absent or empty string) falls through to the interactive loop. -/
def prompt_branch (argBranch : Option (List Char)) (inputs : List (List Char)) :
    PromptOut :=
  match argBranch with
  | some b =>
    if !b.isEmpty then
      if valid_branch b then .accepted b inputs else .exit1
    else promptBranchLoop inputs
  | none => promptBranchLoop inputs

/-- The interactive loop of `prompt_commit_msg`: read a line, strip it;
empty warns and re-prompts; otherwise read a confirmation line, lowercase
it, accept the message iff the confirmation starts with `y`, else restart
the loop asking for a new message. -/
def promptMsgLoop : List (List Char) → PromptOut
  | [] => .blocked
  | raw :: rest =>
    if (strip raw).isEmpty then promptMsgLoop rest
    else
      match rest with
      | [] => .blocked
      | confirm :: rest2 =>
        if startsWithY (lower confirm) then .accepted (strip raw) rest2
        else promptMsgLoop rest2

/-- `prompt_commit_msg(arg_msg)`: a truthy (non-empty) pre-set message is
returned unconditionally, with no validation and no confirmation; a falsy
argument falls through to the interactive loop. -/
def prompt_commit_msg (argMsg : Option (List Char)) (inputs : List (List Char)) :
    PromptOut :=
  match argMsg with
  | some m => if !m.isEmpty then .accepted m inputs else promptMsgLoop inputs
  | none => promptMsgLoop inputs

/-- Outcome of a whole run of `main`. -/
inductive MainResult
  | exited (code : Nat)
  | blocked
deriving DecidableEq

/-- The branch-selection step of `main`: try `git checkout -b branch`; on
any `GitCommandError` (the reason is not inspected) fall back to
`git checkout branch`; if that also fails, exit 1.  Returns the git ops
issued and `some code` when the process exits. -/
def checkoutPhase (r : RepoState) (b : List Char) : List GitOp × Option Nat :=
  match r.checkoutNewErr with
  | none => ([.checkoutNew b], none)
  | some _ =>
    if r.checkoutOk then ([.checkoutNew b, .checkout b], none)
    else ([.checkoutNew b, .checkout b], some 1)

/-- `main`: reconcile via `fetch_and_pull`, prompt for the branch, checkout
(with fallback), `git add --all`, prompt for the commit message, commit,
push; each git failure past reconciliation exits 1, and falling off the
end exits 0. -/
def mainRun (r : RepoState) (argBranch argMsg : Option (List Char))
    (inputs : List (List Char)) : List GitOp × MainResult :=
  match fetch_and_pull r with
  | (tr0, .exited c) => (tr0, .exited c)
  | (tr0, .proceed) =>
    match prompt_branch argBranch inputs with
    | .exit1 => (tr0, .exited 1)
    | .blocked => (tr0, .blocked)
    | .accepted b rest1 =>
      match checkoutPhase r b with
      | (trC, some c) => (tr0 ++ trC, .exited c)
      | (trC, none) =>
        if !r.addOk then (tr0 ++ trC ++ [.addAll], .exited 1)
        else
          match prompt_commit_msg argMsg rest1 with
          | .exit1 => (tr0 ++ trC ++ [.addAll], .exited 1)
          | .blocked => (tr0 ++ trC ++ [.addAll], .blocked)
          | .accepted m _ =>
            if !r.commitOk then
              (tr0 ++ trC ++ [.addAll, .commit m], .exited 1)
            else if !r.pushOk then
              (tr0 ++ trC ++ [.addAll, .commit m, .push b], .exited 1)
            else (tr0 ++ trC ++ [.addAll, .commit m, .push b], .exited 0)

/-- The invalid pre-set branch name of end-to-end scenario D. -/
def badName : List Char := "bad:name".data

/-- The pre-set branch name of end-to-end scenario B. -/
def featureX : List Char := "feature/x".data

/-- The pre-set commit message of end-to-end scenario B. -/
def fixBug : List Char := "fix bug".data

/-- A repository state in which every git call succeeds, the remote does
not diverge, and the working tree is dirty (the repository of scenario B). -/
def allOkDirty : RepoState :=
  { fetchOk := true, remoteDiff := false, dirty := true, stashSaveOk := true
    pullOk := true, stashListNonempty := true, checkoutNewErr := none
    checkoutOk := true, addOk := true, commitOk := true, pushOk := true }

/-- A repository whose remote has new commits while the tree is dirty and
every git call succeeds (the happy path of scenario C). -/
def divergedDirty : RepoState := { allOkDirty with remoteDiff := true }

/-- A repository with a clean tree and no remote divergence (scenario A). -/
def cleanIdle : RepoState := { allOkDirty with dirty := false }

/-- An error text for `git checkout -b` that is not "branch already
exists". -/
def permissionDenied : List Char := "permission denied".data

/-- Like `allOkDirty` but `git checkout -b` fails with an unrelated reason
while the plain `git checkout` fallback succeeds. -/
def rPermDenied : RepoState := { allOkDirty with checkoutNewErr := some permissionDenied }

/-- Like `rPermDenied` but the fallback `git checkout` also fails. -/
def rCoFail : RepoState := { rPermDenied with checkoutOk := false }

/-- Operations that only the post-reconciliation part of the workflow
(branch selection, staging, commit, push) can issue. -/
def isLateOp : GitOp → Bool
  | .checkoutNew _ => true
  | .checkout _ => true
  | .addAll => true
  | .commit _ => true
  | .push _ => true
  | _ => false

/-! ## Helper lemmas -/

/-- The head of a `dropWhile` result never satisfies the predicate. -/
theorem head_dropWhile_false {α : Type} (p : α → Bool) (l : List α) {a : α}
    {as : List α} (h : l.dropWhile p = a :: as) : p a = false := by
  have hd := List.head?_dropWhile_not p l
  rw [h] at hd
  exact hd

/-- `dropWhile` preserves the last element of any list it does not empty. -/
theorem getLast?_dropWhile {α : Type} (p : α → Bool) :
    ∀ l : List α, l.dropWhile p ≠ [] → (l.dropWhile p).getLast? = l.getLast? := by
  intro l
  induction l with
  | nil => intro h; simp [List.dropWhile] at h
  | cons x xs ih =>
    intro h
    rw [List.dropWhile_cons] at h ⊢
    by_cases hx : p x = true
    · simp only [hx, if_true] at h ⊢
      rw [ih h]
      have hxs : xs ≠ [] := by
        intro e
        rw [e] at h
        simp [List.dropWhile] at h
      cases xs with
      | nil => exact absurd rfl hxs
      | cons y ys => simp
    · simp [hx]

/-- A nonempty `strip` result starts with a non-whitespace character. -/
theorem strip_head_not_ws (s : List Char) {a : Char} {as : List Char}
    (h : strip s = a :: as) : pyWs a = false := by
  unfold strip at h
  have hne : (s.dropWhile pyWs).reverse.dropWhile pyWs ≠ [] := by
    intro e
    rw [e] at h
    simp at h
  have hlast : ((s.dropWhile pyWs).reverse.dropWhile pyWs).getLast? = some a := by
    have := congrArg List.head? h
    rw [List.head?_reverse] at this
    simpa using this
  rw [getLast?_dropWhile pyWs _ hne, List.getLast?_reverse] at hlast
  cases ht : s.dropWhile pyWs with
  | nil => rw [ht] at hlast; simp at hlast
  | cons b bs =>
    rw [ht] at hlast
    simp at hlast
    rw [← hlast]
    exact head_dropWhile_false pyWs s ht

/-- A nonempty `strip` result ends with a non-whitespace character. -/
theorem strip_getLast_not_ws (s : List Char) {a : Char}
    (h : (strip s).getLast? = some a) : pyWs a = false := by
  unfold strip at h
  rw [List.getLast?_reverse] at h
  cases hu : (s.dropWhile pyWs).reverse.dropWhile pyWs with
  | nil => rw [hu] at h; simp at h
  | cons b bs =>
    rw [hu] at h
    simp at h
    rw [← h]
    exact head_dropWhile_false pyWs _ hu

/-- Branch names accepted by the interactive loop are stripped input lines
that pass `valid_branch`. -/
theorem promptBranchLoop_accepted :
    ∀ (l : List (List Char)) (v : List Char) (r : List (List Char)),
      promptBranchLoop l = .accepted v r →
      ∃ raw, v = strip raw ∧ valid_branch v = true := by
  intro l
  induction l with
  | nil => intro v r h; simp [promptBranchLoop] at h
  | cons raw rest ih =>
    intro v r h
    rw [promptBranchLoop] at h
    by_cases hv : valid_branch (strip raw) = true
    · rw [if_pos hv] at h
      cases h
      exact ⟨raw, rfl, hv⟩
    · rw [if_neg hv] at h
      exact ih v r h

/-- Fuel-indexed analysis of the commit-message loop: an accepted message
comes from a stripped, nonempty input line, and acceptance strictly
consumes input. -/
theorem promptMsgLoop_accepted_aux :
    ∀ (n : Nat) (l : List (List Char)), l.length ≤ n →
      ∀ (v : List Char) (r : List (List Char)), promptMsgLoop l = .accepted v r →
        r.length < l.length ∧ ∃ raw, v = strip raw ∧ v.isEmpty = false := by
  intro n
  induction n with
  | zero =>
    intro l hl v r h
    have hnil : l = [] := List.length_eq_zero.mp (Nat.le_zero.mp hl)
    rw [hnil] at h
    simp [promptMsgLoop] at h
  | succ n ih =>
    intro l hl v r h
    match l with
    | [] => simp [promptMsgLoop] at h
    | raw :: rest =>
      rw [promptMsgLoop.eq_def] at h
      simp only at h
      by_cases he : (strip raw).isEmpty = true
      · rw [if_pos he] at h
        have hr := ih rest (by simpa using Nat.le_of_succ_le_succ hl) v r h
        exact ⟨Nat.lt_succ_of_lt hr.1, hr.2⟩
      · rw [if_neg he] at h
        match rest with
        | [] => simp at h
        | confirm :: rest2 =>
          simp only at h
          by_cases hy : startsWithY (lower confirm) = true
          · rw [if_pos hy] at h
            cases h
            refine ⟨by simp [Nat.lt_succ_of_lt], raw, rfl, ?_⟩
            simpa using he
          · rw [if_neg hy] at h
            have hlen : rest2.length ≤ n := by
              simp at hl
              omega
            have hr := ih rest2 hlen v r h
            refine ⟨?_, hr.2⟩
            have := hr.1
            simp
            omega

/-- Acceptance by the commit-message loop strictly consumes stdin. -/
theorem promptMsgLoop_consumes (l : List (List Char)) (v : List Char)
    (r : List (List Char)) (h : promptMsgLoop l = .accepted v r) :
    r.length < l.length :=
  (promptMsgLoop_accepted_aux l.length l le_rfl v r h).1

/-- Messages accepted by the interactive loop are stripped, nonempty input
lines. -/
theorem promptMsgLoop_accepted (l : List (List Char)) (v : List Char)
    (r : List (List Char)) (h : promptMsgLoop l = .accepted v r) :
    ∃ raw, v = strip raw ∧ v.isEmpty = false :=
  (promptMsgLoop_accepted_aux l.length l le_rfl v r h).2

/-- Both branch-selection traces consist of late (post-reconciliation)
operations only. -/
theorem checkoutPhase_all_late (r : RepoState) (b : List Char) :
    (checkoutPhase r b).1.all isLateOp = true := by
  cases hc : r.checkoutNewErr with
  | none => simp [checkoutPhase, hc, isLateOp]
  | some e =>
    by_cases hco : r.checkoutOk = true <;>
      simp [checkoutPhase, hc, hco, isLateOp]

/-- The trace of every run is the reconciliation trace followed by late
operations only. -/
theorem mainRun_trace_split (r : RepoState) (aB aM : Option (List Char))
    (ins : List (List Char)) :
    ∃ tail, (mainRun r aB aM ins).1 = (fetch_and_pull r).1 ++ tail
      ∧ tail.all isLateOp = true := by
  unfold mainRun
  split
  next tr0 c heq => exact ⟨[], by rw [heq]; simp, rfl⟩
  next tr0 heq =>
    split
    · exact ⟨[], by rw [heq]; simp, rfl⟩
    · exact ⟨[], by rw [heq]; simp, rfl⟩
    next b rest1 hpb =>
      have hlateC : ∀ trC oc, checkoutPhase r b = (trC, oc) →
          trC.all isLateOp = true := by
        intro trC oc hco
        have := checkoutPhase_all_late r b
        rw [hco] at this
        exact this
      split
      next trC c hco =>
        exact ⟨trC, by rw [heq], hlateC trC (some c) hco⟩
      next trC hco =>
        have hlate := hlateC trC none hco
        split
        · exact ⟨trC ++ [.addAll], by rw [heq]; simp,
            by simp [hlate, isLateOp]⟩
        · split
          · exact ⟨trC ++ [.addAll], by rw [heq]; simp,
              by simp [hlate, isLateOp]⟩
          · exact ⟨trC ++ [.addAll], by rw [heq]; simp,
              by simp [hlate, isLateOp]⟩
          next m rest2 hpm =>
            split
            · exact ⟨trC ++ [.addAll, .commit m], by rw [heq]; simp,
                by simp [hlate, isLateOp]⟩
            · split
              · exact ⟨trC ++ [.addAll, .commit m, .push b],
                  by rw [heq]; simp, by simp [hlate, isLateOp]⟩
              · exact ⟨trC ++ [.addAll, .commit m, .push b],
                  by rw [heq]; simp, by simp [hlate, isLateOp]⟩

/-- No run of `fetch_and_pull` ever issues a stash pop. -/
theorem fetch_and_pull_count_stashPop (r : RepoState) :
    (fetch_and_pull r).1.count .stashPop = 0 := by
  obtain ⟨f, rd, d, ss, p, sl, cne, co, a, c, pu⟩ := r
  cases f <;> cases rd <;> cases d <;> cases ss <;> cases p <;>
    simp [fetch_and_pull, List.count_cons, List.count_nil]

/-! ## Claims -/

/-- C1 (code bug): on a diverging remote with a dirty tree the Reconciler
performs stash-save, pull, stash-list and then proceeds, but no run — of
`fetch_and_pull` or of the whole workflow — ever issues a stash pop, even
though the script prints "Restoring stashed changes"; the stash is never
restored before staging. -/
theorem stash_saved_but_never_popped :
    fetch_and_pull divergedDirty =
      ([.fetch, .logRange, .isDirty, .stashSave, .pull, .stashList], .proceed)
    ∧ (∀ r : RepoState, (fetch_and_pull r).1.count .stashPop = 0)
    ∧ (∀ (r : RepoState) (aB aM : Option (List Char)) (ins : List (List Char)),
        (mainRun r aB aM ins).1.count .stashPop = 0) := by
  refine ⟨by decide, fetch_and_pull_count_stashPop, ?_⟩
  intro r aB aM ins
  obtain ⟨tail, htr, hall⟩ := mainRun_trace_split r aB aM ins
  have hnm : GitOp.stashPop ∉ tail := by
    intro hmem
    have := (List.all_eq_true.mp hall) _ hmem
    simp [isLateOp] at this
  rw [htr, List.count_append, fetch_and_pull_count_stashPop,
    List.count_eq_zero.mpr hnm]

/-- C2 counterexample: with pre-set branch "bad:name" on a diverged, dirty
repository the run does exit 1, but only after reconciliation has already
issued the mutating stash-save and pull calls — not "immediately with no
repository mutation calls at all". -/
theorem invalid_preset_branch_mutates_first :
    mainRun divergedDirty (some badName) none [] =
      ([.fetch, .logRange, .isDirty, .stashSave, .pull, .stashList],
        .exited 1) := by
  decide

/-- C2 (amended): a run with the invalid pre-set branch name "bad:name"
never issues a checkout, staging, commit or push operation, and either
exits 1, or reconciliation itself found nothing to do and the run exits 0
before the branch name is ever validated.  Reconciliation runs before
branch validation, so its stash-save and pull calls may still occur. -/
theorem invalid_preset_branch_no_work_ops (r : RepoState)
    (ins : List (List Char)) :
    (mainRun r (some badName) none ins).1.all (fun o => !isLateOp o) = true
    ∧ ((mainRun r (some badName) none ins).2 = .exited 1
       ∨ ((fetch_and_pull r).2 = .exited 0
          ∧ (mainRun r (some badName) none ins).2 = .exited 0)) := by
  have hv : valid_branch badName = false := by decide
  have hne : badName.isEmpty = false := by decide
  obtain ⟨f, rd, d, ss, p, sl, cne, co, a, c, pu⟩ := r
  cases f <;> cases rd <;> cases d <;> cases ss <;> cases p <;>
    simp [mainRun, fetch_and_pull, prompt_branch, hv, hne, isLateOp]

/-- C3 counterexample: `git checkout -b` fails with reason "permission
denied" — not "branch already exists" — yet the fallback checkout of the
existing branch is still taken and the run completes with exit 0 instead
of treating the failure as fatal. -/
theorem fallback_taken_for_unrelated_reason :
    rPermDenied.checkoutNewErr = some permissionDenied
    ∧ (permissionDenied == "branch already exists".data) = false
    ∧ mainRun rPermDenied (some featureX) (some fixBug) [] =
        ([.fetch, .logRange, .isDirty, .checkoutNew featureX,
          .checkout featureX, .addAll, .commit fixBug, .push featureX],
          .exited 0) := by
  decide

/-- C3 (amended): branch creation is attempted exactly once; on any
creation failure, regardless of the reported reason, the fallback checkout
of the existing branch is attempted exactly once; the step is fatal (exit
1) precisely when creation failed and the fallback also fails. -/
theorem checkout_fallback_any_reason (r : RepoState) (b : List Char) :
    (checkoutPhase r b).1.count (.checkoutNew b) = 1
    ∧ (checkoutPhase r b).1.count (.checkout b) =
        (if r.checkoutNewErr.isSome then 1 else 0)
    ∧ ((checkoutPhase r b).2 = some 1 ↔
        (r.checkoutNewErr.isSome = true ∧ r.checkoutOk = false))
    ∧ ((checkoutPhase r b).2 = none ∨ (checkoutPhase r b).2 = some 1) := by
  cases hc : r.checkoutNewErr with
  | none => simp [checkoutPhase, hc, List.count_cons, List.count_nil]
  | some e =>
    cases hco : r.checkoutOk <;>
      simp [checkoutPhase, hc, hco, List.count_cons, List.count_nil]

/-- Witness for `checkout_fallback_any_reason` at a repository where both
checkout attempts fail. -/
theorem checkout_fallback_any_reason_witness :
    (checkoutPhase rCoFail featureX).2 = some 1 :=
  (checkout_fallback_any_reason rCoFail featureX).2.2.1.mpr ⟨rfl, rfl⟩

/-- C5: on a clean tree with no remote divergence the run prints the
nothing-to-do notice and exits 0 straight from reconciliation; the trace
is exactly fetch, log, is-dirty, notice — no staging, commit or push. -/
theorem clean_no_divergence_exits_zero (r : RepoState)
    (aB aM : Option (List Char)) (ins : List (List Char))
    (hf : r.fetchOk = true) (hd : r.remoteDiff = false)
    (hc : r.dirty = false) :
    mainRun r aB aM ins =
      ([.fetch, .logRange, .isDirty, .noticeNothingToDo], .exited 0) := by
  simp [mainRun, fetch_and_pull, hf, hd, hc]

/-- Witness for `clean_no_divergence_exits_zero` on the concrete clean,
non-diverged repository. -/
theorem clean_no_divergence_exits_zero_witness :
    mainRun cleanIdle none none [] =
      ([.fetch, .logRange, .isDirty, .noticeNothingToDo], .exited 0) :=
  clean_no_divergence_exits_zero cleanIdle none none [] rfl rfl rfl

/-- C7: scenario B — no divergence, dirty tree, pre-set branch
"feature/x" and message "fix bug", all git calls succeeding: the run
issues checkout-new, add-all, commit, push in exactly that order and exits
0. -/
theorem scenario_b_trace (r : RepoState) (ins : List (List Char))
    (hf : r.fetchOk = true) (hd : r.remoteDiff = false)
    (hdirty : r.dirty = true) (hco : r.checkoutNewErr = none)
    (ha : r.addOk = true) (hcm : r.commitOk = true) (hp : r.pushOk = true) :
    mainRun r (some featureX) (some fixBug) ins =
      ([.fetch, .logRange, .isDirty, .checkoutNew featureX, .addAll,
        .commit fixBug, .push featureX], .exited 0) := by
  have hv : valid_branch featureX = true := by decide
  have hb : featureX.isEmpty = false := by decide
  have hm : fixBug.isEmpty = false := by decide
  simp [mainRun, fetch_and_pull, prompt_branch, prompt_commit_msg,
    checkoutPhase, hf, hd, hdirty, hco, ha, hcm, hp, hv, hb, hm]

/-- Witness for `scenario_b_trace` on the concrete all-succeeding dirty
repository. -/
theorem scenario_b_trace_witness :
    mainRun allOkDirty (some featureX) (some fixBug) [] =
      ([.fetch, .logRange, .isDirty, .checkoutNew featureX, .addAll,
        .commit fixBug, .push featureX], .exited 0) :=
  scenario_b_trace allOkDirty [] rfl rfl rfl rfl rfl rfl rfl

/-- C4 counterexample: the string `a\nb` is non-empty, contains none of
the reserved characters, and neither begins nor ends with `/`, yet
`valid_branch` rejects it: regex `.` does not match a newline, so `.+`
cannot span the interior newline. -/
theorem valid_branch_rejects_interior_newline :
    valid_branch ['a', '\n', 'b'] = false
    ∧ (['a', '\n', 'b'].isEmpty) = false
    ∧ ['a', '\n', 'b'].any reservedChar = false
    ∧ (['a', '\n', 'b'].head? == some '/') = false
    ∧ (['a', '\n', 'b'].getLast? == some '/') = false := by decide

/-- C4 (amended): `valid_branch` rejects the empty string, any string
containing one of `~ ^ : ? * [ \`, and any string beginning or ending
with `/`; it accepts every other non-empty string that contains no
newline character (including names with internal `/`). -/
theorem valid_branch_characterization (s : List Char) :
    ((s = [] ∨ s.any reservedChar = true ∨ s.head? = some '/' ∨
      s.getLast? = some '/') → valid_branch s = false)
    ∧ ((s ≠ [] ∧ s.any reservedChar = false ∧ s.head? ≠ some '/' ∧
        s.getLast? ≠ some '/' ∧ s.all (fun c => c != '\n') = true) →
      valid_branch s = true) := by
  constructor
  · rintro (h | h | h | h)
    · subst h; decide
    · cases hla : laMatches s with
      | true => simp [valid_branch, hla]
      | false =>
        have htw : (s.takeWhile (fun c => c != '\n')).any reservedChar
            = false := by
          unfold laMatches at hla
          exact (Bool.or_eq_false_iff.mp hla).2
        suffices hb : bodyMatches s = false by simp [valid_branch, hb]
        cases hb : bodyMatches s with
        | false => rfl
        | true =>
        exfalso
        unfold bodyMatches at hb
        rcases Bool.or_eq_true_iff.mp hb with hb1 | hb2
        · rw [Bool.and_eq_true_iff, Bool.and_eq_true_iff] at hb1
          have hall := hb1.1.2
          have hts : s.takeWhile (fun c => c != '\n') = s :=
            List.takeWhile_eq_self_iff.mpr
              (fun x hx => (List.all_eq_true.mp hall) x hx)
          rw [hts, h] at htw
          cases htw
        · rw [Bool.and_eq_true_iff, Bool.and_eq_true_iff,
            Bool.and_eq_true_iff] at hb2
          have hlast : s.getLast? = some '\n' := by
            have := hb2.1.1.1
            simpa using this
          have hdl := hb2.1.2
          have hs : s.dropLast ++ ['\n'] = s :=
            List.dropLast_append_getLast? '\n' (by simp [hlast])
          have hts : s.takeWhile (fun c => c != '\n') = s.dropLast := by
            conv_lhs => rw [← hs]
            rw [List.takeWhile_append_of_pos
              (fun a ha => (List.all_eq_true.mp hdl) a ha)]
            simp
          obtain ⟨cch, hmem, hresv⟩ := List.any_eq_true.mp h
          rw [← hs] at hmem
          rcases List.mem_append.mp hmem with hm | hm
          · have hany : (s.takeWhile (fun c => c != '\n')).any reservedChar
                = true :=
              List.any_eq_true.mpr ⟨cch, by rw [hts]; exact hm, hresv⟩
            rw [htw] at hany
            cases hany
          · have hcc : cch = '\n' := by simpa using hm
            rw [hcc] at hresv
            simp [reservedChar] at hresv
    · have hss : startsSlash s = true := by simp [startsSlash, h]
      simp [valid_branch, laMatches, hss]
    · have hb : bodyMatches s = false := by simp [bodyMatches, h]
      simp [valid_branch, hb]
  · rintro ⟨hne, hres, hhead, hlast, hall⟩
    have hts : s.takeWhile (fun c => c != '\n') = s :=
      List.takeWhile_eq_self_iff.mpr
        (fun x hx => (List.all_eq_true.mp hall) x hx)
    have hla : laMatches s = false := by
      unfold laMatches startsSlash
      rw [hts, Bool.or_eq_false_iff]
      exact ⟨beq_eq_false_iff_ne.mpr hhead, hres⟩
    have hbody : bodyMatches s = true := by
      unfold bodyMatches
      apply Bool.or_eq_true_iff.mpr
      left
      rw [Bool.and_eq_true_iff, Bool.and_eq_true_iff]
      refine ⟨⟨?_, hall⟩, ?_⟩
      · cases s with
        | nil => exact absurd rfl hne
        | cons x xs => rfl
      · rw [Bool.not_eq_true', beq_eq_false_iff_ne]
        exact hlast
    simp [valid_branch, hla, hbody]

/-- Witness for `valid_branch_characterization`: a reserved character is
rejected and a hierarchical name is accepted. -/
theorem valid_branch_characterization_witness :
    valid_branch ['b', 'a', 'd', ':'] = false
    ∧ valid_branch ['a', '/', 'b'] = true :=
  ⟨(valid_branch_characterization ['b', 'a', 'd', ':']).1 (by decide),
   (valid_branch_characterization ['a', '/', 'b']).2 (by decide)⟩

/-- A nonempty stripped value neither begins nor ends with whitespace. -/
theorem stripped_ends (raw v : List Char) (hraw : v = strip raw)
    (hne : v.isEmpty = false) :
    (∀ ch, v.head? = some ch → pyWs ch = false)
    ∧ (∀ ch, v.getLast? = some ch → pyWs ch = false) := by
  constructor
  · intro ch hch
    cases hv : v with
    | nil => rw [hv] at hne; simp at hne
    | cons a as =>
      rw [hv] at hch
      simp at hch
      rw [← hch]
      exact strip_head_not_ws raw (by rw [← hraw]; exact hv)
  · intro ch hch
    exact strip_getLast_not_ws raw (by rw [← hraw]; exact hch)

/-- C6 counterexample: the whitespace-only pre-set message `" "` is truthy
in Python, so `prompt_commit_msg` returns it unconditionally: the workflow
accepts a whitespace-only commit message when it is pre-set. -/
theorem whitespace_preset_message_accepted :
    prompt_commit_msg (some [' ']) [] = .accepted [' '] []
    ∧ ([' '].all pyWs) = true := by decide

/-- C6 (amended): a message accepted through the interactive loop is never
empty or whitespace-only (input is stripped, and a message empty after
stripping re-prompts); but a non-empty pre-set message is accepted
unconditionally without validation — even whitespace-only — while an
empty pre-set message falls back to the interactive prompt. -/
theorem commit_message_validation :
    (∀ (ins : List (List Char)) (v : List Char) (r : List (List Char)),
        promptMsgLoop ins = .accepted v r →
        v.isEmpty = false ∧ v.any (fun ch => !pyWs ch) = true)
    ∧ (∀ (m : List Char) (ins : List (List Char)), m.isEmpty = false →
        prompt_commit_msg (some m) ins = .accepted m ins)
    ∧ (∀ ins : List (List Char),
        prompt_commit_msg (some []) ins = promptMsgLoop ins) := by
  refine ⟨?_, ?_, fun ins => rfl⟩
  · intro ins v r h
    obtain ⟨raw, hraw, hne⟩ := promptMsgLoop_accepted ins v r h
    refine ⟨hne, ?_⟩
    cases hv : v with
    | nil => rw [hv] at hne; simp at hne
    | cons a as =>
      apply List.any_eq_true.mpr
      refine ⟨a, List.mem_cons_self a as, ?_⟩
      have hws : pyWs a = false :=
        strip_head_not_ws raw (by rw [← hraw]; exact hv)
      simp [hws]
  · intro m ins hm
    simp [prompt_commit_msg, hm]

/-- Witness for `commit_message_validation`: an interactive acceptance and
a whitespace-only pre-set acceptance. -/
theorem commit_message_validation_witness :
    (['h', 'i'].isEmpty = false
      ∧ ['h', 'i'].any (fun ch => !pyWs ch) = true)
    ∧ prompt_commit_msg (some [' ']) [['x']] = .accepted [' '] [['x']] :=
  ⟨commit_message_validation.1 [['h', 'i'], ['y']] ['h', 'i'] [] (by decide),
   commit_message_validation.2.1 [' '] [['x']] (by decide)⟩

/-- C8: empty-string pre-set flags are falsy in Python and behave exactly
as absent flags — `--branch ""` enters the interactive branch loop rather
than failing as invalid input, and `--message ""` enters the interactive
message-plus-confirmation loop rather than being accepted outright. -/
theorem empty_preset_flags_are_interactive (ins : List (List Char)) :
    prompt_branch (some []) ins = promptBranchLoop ins
    ∧ prompt_branch none ins = promptBranchLoop ins
    ∧ prompt_commit_msg (some []) ins = promptMsgLoop ins
    ∧ prompt_commit_msg none ins = promptMsgLoop ins :=
  ⟨rfl, rfl, rfl, rfl⟩

/-- C9: interactively accepted branch names and commit messages are
stripped before validation and acceptance, so they are nonempty and never
begin or end with whitespace; pre-set flag values are returned verbatim,
without stripping. -/
theorem interactive_values_stripped :
    (∀ (ins : List (List Char)) (v : List Char) (r : List (List Char)),
        promptBranchLoop ins = .accepted v r →
        v.isEmpty = false
        ∧ (∀ ch, v.head? = some ch → pyWs ch = false)
        ∧ (∀ ch, v.getLast? = some ch → pyWs ch = false))
    ∧ (∀ (ins : List (List Char)) (v : List Char) (r : List (List Char)),
        promptMsgLoop ins = .accepted v r →
        v.isEmpty = false
        ∧ (∀ ch, v.head? = some ch → pyWs ch = false)
        ∧ (∀ ch, v.getLast? = some ch → pyWs ch = false))
    ∧ (∀ (b : List Char) (ins : List (List Char)), b.isEmpty = false →
        valid_branch b = true → prompt_branch (some b) ins = .accepted b ins)
    ∧ (∀ (m : List Char) (ins : List (List Char)), m.isEmpty = false →
        prompt_commit_msg (some m) ins = .accepted m ins) := by
  refine ⟨?_, ?_, ?_, ?_⟩
  · intro ins v r h
    obtain ⟨raw, hraw, hvalid⟩ := promptBranchLoop_accepted ins v r h
    have hne : v.isEmpty = false := by
      cases hv : v with
      | nil => rw [hv] at hvalid; exact absurd hvalid (by decide)
      | cons a as => rfl
    exact ⟨hne, stripped_ends raw v hraw hne⟩
  · intro ins v r h
    obtain ⟨raw, hraw, hne⟩ := promptMsgLoop_accepted ins v r h
    exact ⟨hne, stripped_ends raw v hraw hne⟩
  · intro b ins hb hv
    simp [prompt_branch, hb, hv]
  · intro m ins hm
    simp [prompt_commit_msg, hm]

/-- Witness for `interactive_values_stripped`: an interactively accepted
branch name has non-whitespace ends, while pre-set values keep their
surrounding whitespace. -/
theorem interactive_values_stripped_witness :
    pyWs 'x' = false
    ∧ prompt_branch (some [' ', 'x', ' ']) [] = .accepted [' ', 'x', ' '] []
    ∧ prompt_commit_msg (some [' ', 'm', ' ']) [] =
        .accepted [' ', 'm', ' '] [] :=
  ⟨(interactive_values_stripped.1 [[' ', 'x', ' ']] ['x'] []
      (by decide)).2.1 'x' (by decide),
   interactive_values_stripped.2.2.1 [' ', 'x', ' '] [] (by decide) (by decide),
   interactive_values_stripped.2.2.2 [' ', 'm', ' '] [] (by decide)⟩

/-- C10: once a nonempty (after stripping) message is on offer, the
confirmation response accepts that message iff its lowercased form starts
with `y`; any other response restarts the loop on the remaining input,
asking for a new message rather than re-confirming the same one. -/
theorem confirmation_startswith_y (raw cf : List Char)
    (rest : List (List Char)) (h : (strip raw).isEmpty = false) :
    (promptMsgLoop (raw :: cf :: rest) = .accepted (strip raw) rest ↔
      startsWithY (lower cf) = true)
    ∧ (startsWithY (lower cf) = false →
        promptMsgLoop (raw :: cf :: rest) = promptMsgLoop rest)
    ∧ startsWithY (lower cf) = ((lower cf).head? == some 'y') := by
  have hstep : promptMsgLoop (raw :: cf :: rest) =
      if startsWithY (lower cf) then .accepted (strip raw) rest
      else promptMsgLoop rest := by
    rw [promptMsgLoop.eq_def]
    simp only
    rw [if_neg (by simp [h])]
  refine ⟨⟨?_, ?_⟩, ?_, rfl⟩
  · intro hacc
    cases hy : startsWithY (lower cf) with
    | true => rfl
    | false =>
      rw [hstep, if_neg (by simp [hy])] at hacc
      have := promptMsgLoop_consumes rest (strip raw) rest hacc
      omega
  · intro hy
    rw [hstep, if_pos hy]
  · intro hy
    rw [hstep, if_neg (by simp [hy])]

/-- Witness for `confirmation_startswith_y`: "Yes" confirms, "no"
restarts the loop. -/
theorem confirmation_startswith_y_witness :
    promptMsgLoop [['m'], ['Y', 'e', 's']] = .accepted ['m'] []
    ∧ promptMsgLoop [['m'], ['n', 'o'], ['m', '2'], ['y']] =
        promptMsgLoop [['m', '2'], ['y']] :=
  ⟨(confirmation_startswith_y ['m'] ['Y', 'e', 's'] [] (by decide)).1.mpr
      (by decide),
   (confirmation_startswith_y ['m'] ['n', 'o'] [['m', '2'], ['y']]
      (by decide)).2.1 (by decide)⟩

end Gitflow
